import Mathlib

/-!
Verification development for the boringtun userspace WireGuard device core
(src/boringtun/src/device/mod.rs and src/boringtun/src/device/api.rs).

The device state and its operations are shallowly embedded: the three peer
indices (by public key, by 24-bit index, by allowed-IP prefix) are modelled as
association lists with the HashMap insert/remove/get semantics, the
interior-mutable per-peer endpoint state (held behind an Arc in the source) is
a store keyed by the peer's unique 24-bit index, and Rust panics
(panic!/expect/assert!/todo!/unimplemented!) are modelled as an Except error
carrying the panic message and the device state at the panic point.

External collaborators that are not part of the two source files (the Noise
Tunn type, the rate limiter internals, the AllowedIps trie, the Peer struct,
the UDP socket adapter, x25519 key derivation) are modelled from the
specification's contracts for them; each such definition carries a doc comment
starting with "Modelled from the spec:".
-/

set_option linter.unusedVariables false

deriving instance DecidableEq for Except

namespace BoringTun

/-- Byte strings (keys, packets) are lists of naturals. -/
abbrev Key := List Nat

/-- An IP address, v4 or v6 (the numeric value of the address). -/
inductive IpAddr where
  | v4 (a : Nat)
  | v6 (a : Nat)
deriving DecidableEq

/-- Modelled from the spec: a CIDR entry (address plus prefix length) as used
by the peer's allowed-IP set and the device trie. -/
structure AllowedIP where
  addr : IpAddr
  cidr : Nat
deriving DecidableEq

/-- A socket address (ip, port). -/
structure SockAddr where
  ip : IpAddr
  port : Nat
deriving DecidableEq

/-- Modelled from the spec: a UDP socket adapter; we track only the
kernel-reported bound port and the address family. -/
structure UDPSocket where
  port : Nat
  isV6 : Bool
deriving DecidableEq

/-- Modelled from the spec: the rate limiter collaborator, tracked as the
device public key it was built from and its per-second handshake capacity. -/
structure RateLimiter where
  publicKey : Key
  capacity : Nat
deriving DecidableEq

/-- Modelled from the spec: the Tunnel collaborator's configuration state, as
set by Tunn::new and updated by set_static_private. -/
structure Tunn where
  staticPrivate : Key
  peerPublic : Key
  presharedKey : Option Key
  keepalive : Option Nat
  index : Nat
deriving DecidableEq

/-- Modelled from the spec: Tunn::new(static_private, peer_public, preshared,
keepalive, index, rate_limiter?); construction is modelled as always
succeeding (the source unwraps the result). -/
def Tunn.new (staticPrivate : Key) (peerPublic : Key) (presharedKey : Option Key)
    (keepalive : Option Nat) (index : Nat) : Tunn :=
  ⟨staticPrivate, peerPublic, presharedKey, keepalive, index⟩

/-- Modelled from the spec: Tunn::set_static_private(priv, pub, rate_limiter?)
returns Ok or Err; which key combinations a tunnel rejects is decided inside
the noise module (not under src/), so acceptance is an oracle passed in. On
Ok the tunnel's static private key is replaced; on Err the spec does not
define the tunnel state and the model leaves it unchanged (set_key panics
before that state becomes observable). -/
def Tunn.setStaticPrivate (t : Tunn) (priv : Key) (pub : Key)
    (accepts : Tunn → Key → Key → Bool) : Except Unit Tunn :=
  if accepts t priv pub then .ok { t with staticPrivate := priv } else .error ()

/-- The immutable part of a peer (device/peer.rs); created by Peer::new in
update_peer, identified device-wide by its unique 24-bit index. -/
structure Peer where
  tunnel : Tunn
  index : Nat
  allowedIps : List AllowedIP
  presharedKey : Option Key
deriving DecidableEq

/-- Modelled from the spec: whether a CIDR covers an address (same family and
equal high prefix-length bits). -/
def cidrContains (c : AllowedIP) (a : IpAddr) : Bool :=
  match c.addr, a with
  | .v4 base, .v4 x => base >>> (32 - c.cidr) == x >>> (32 - c.cidr)
  | .v6 base, .v6 x => base >>> (128 - c.cidr) == x >>> (128 - c.cidr)
  | _, _ => false

/-- Modelled from the spec: Peer::is_allowed_ip(addr) is true iff the peer's
allowed-IP set has an entry covering addr (the trie find over the peer's own
CIDRs returns a value iff some CIDR covers the address). -/
def Peer.isAllowedIp (p : Peer) (a : IpAddr) : Bool :=
  p.allowedIps.any (fun c => cidrContains c a)

/-- The mutable endpoint state kept inside each peer behind the Arc. -/
structure Endpoint where
  addr : Option SockAddr
  conn : Option UDPSocket
deriving DecidableEq

section AList

variable {α : Type} {β : Type} [DecidableEq α]

/-- Association-list lookup, the model of HashMap::get. -/
def alGet : List (α × β) → α → Option β
  | [], _ => none
  | e :: rest, k => if e.1 = k then some e.2 else alGet rest k

/-- Association-list key removal, the model of HashMap::remove. -/
def alRemove (m : List (α × β)) (k : α) : List (α × β) :=
  m.filter (fun e => decide (e.1 ≠ k))

/-- Association-list insert-or-replace, the model of HashMap::insert. -/
def alInsert (m : List (α × β)) (k : α) (v : β) : List (α × β) :=
  (k, v) :: alRemove m k

/-- The keys of the association list are pairwise distinct. -/
def keysNodup (m : List (α × β)) : Prop := (m.map Prod.fst).Nodup

instance (m : List (α × β)) : Decidable (keysNodup m) := by
  unfold keysNodup; infer_instance

theorem mem_of_alGet {m : List (α × β)} {k : α} {v : β}
    (h : alGet m k = some v) : (k, v) ∈ m := by
  induction m with
  | nil => simp [alGet] at h
  | cons e rest ih =>
    obtain ⟨e1, e2⟩ := e
    by_cases hk : e1 = k
    · subst hk
      simp [alGet] at h
      subst h
      exact List.mem_cons_self _ _
    · simp [alGet, hk] at h
      exact List.mem_cons_of_mem _ (ih h)

theorem alGet_of_mem {m : List (α × β)} {k : α} {v : β}
    (hn : keysNodup m) (h : (k, v) ∈ m) : alGet m k = some v := by
  induction m with
  | nil => simp at h
  | cons e rest ih =>
    rcases List.mem_cons.mp h with h1 | h1
    · obtain rfl := h1.symm
      simp [alGet]
    · have hk : e.1 ≠ k := by
        intro hek
        have : k ∈ rest.map Prod.fst := List.mem_map.mpr ⟨(k, v), h1, rfl⟩
        have := (List.nodup_cons.mp hn).1
        rw [hek] at this
        exact this ‹k ∈ rest.map Prod.fst›
      simp only [alGet, if_neg hk]
      exact ih (List.nodup_cons.mp hn).2 h1

theorem mem_alRemove {m : List (α × β)} {k : α} {e : α × β} :
    e ∈ alRemove m k ↔ e ∈ m ∧ e.1 ≠ k := by
  simp [alRemove, List.mem_filter]

theorem keysNodup_alRemove {m : List (α × β)} (k : α) (h : keysNodup m) :
    keysNodup (alRemove m k) := by
  exact ((List.filter_sublist m).map Prod.fst).nodup h

theorem alGet_filterKey {m : List (α × β)} (q : α → Bool) (k : α) :
    alGet (m.filter (fun e => q e.1)) k = if q k then alGet m k else none := by
  induction m with
  | nil => simp [alGet]
  | cons e rest ih =>
    obtain ⟨e1, e2⟩ := e
    by_cases hk : e1 = k
    · subst hk
      by_cases hq : q e1 <;> simp [List.filter_cons, hq, alGet, ih]
    · by_cases hq : q e1 <;> simp [List.filter_cons, hq, alGet, hk, ih]

theorem alGet_alRemove_self {m : List (α × β)} {k : α} :
    alGet (alRemove m k) k = none := by
  have h := alGet_filterKey (m := m) (fun a => decide (a ≠ k)) k
  simpa [alRemove] using h

theorem alGet_alRemove_ne {m : List (α × β)} {k k' : α} (h : k' ≠ k) :
    alGet (alRemove m k) k' = alGet m k' := by
  have h2 := alGet_filterKey (m := m) (fun a => decide (a ≠ k)) k'
  simpa [alRemove, h] using h2

theorem mem_alInsert {m : List (α × β)} {k : α} {v : β} {e : α × β} :
    e ∈ alInsert m k v ↔ e = (k, v) ∨ (e ∈ m ∧ e.1 ≠ k) := by
  simp [alInsert, mem_alRemove]

theorem alGet_alInsert_self {m : List (α × β)} {k : α} {v : β} :
    alGet (alInsert m k v) k = some v := by
  simp [alInsert, alGet]

theorem alGet_alInsert_ne {m : List (α × β)} {k k' : α} {v : β} (h : k' ≠ k) :
    alGet (alInsert m k v) k' = alGet m k' := by
  have hne : k ≠ k' := fun hh => h hh.symm
  simp [alInsert, alGet, hne, alGet_alRemove_ne h]

theorem keysNodup_alInsert {m : List (α × β)} {k : α} {v : β} (h : keysNodup m) :
    keysNodup (alInsert m k v) := by
  refine List.nodup_cons.mpr ⟨?_, keysNodup_alRemove k h⟩
  intro hmem
  rcases List.mem_map.mp hmem with ⟨e, he, hk⟩
  exact (mem_alRemove.mp he).2 hk

end AList

/-- Modelled from the spec: AllowedIps::insert for each allowed CIDR in turn
(the device trie stores one value per exact prefix, inserting replaces). -/
def ipInsertMany (t : List (AllowedIP × Peer)) (cs : List AllowedIP) (p : Peer) :
    List (AllowedIP × Peer) :=
  cs.foldl (fun acc c => alInsert acc c p) t

/-- Modelled from the spec: AllowedIps::remove(predicate) with the predicate
used by Device::remove_peer (same peer identity; Arc::ptr_eq in the source,
which on reachable device states coincides with value equality because peer
indices are unique). -/
def ipRemovePeer (t : List (AllowedIP × Peer)) (p : Peer) : List (AllowedIP × Peer) :=
  t.filter (fun e => decide (e.2 ≠ p))

theorem alGet_ipInsertMany (t : List (AllowedIP × Peer)) (cs : List AllowedIP)
    (p : Peer) (c : AllowedIP) :
    alGet (ipInsertMany t cs p) c = if c ∈ cs then some p else alGet t c := by
  induction cs generalizing t with
  | nil => simp [ipInsertMany]
  | cons c0 rest ih =>
    show alGet (ipInsertMany (alInsert t c0 p) rest p) c = _
    rw [ih]
    by_cases hr : c ∈ rest
    · simp [hr]
    · by_cases hc : c = c0
      · subst hc
        simp [hr, alGet_alInsert_self]
      · simp [hr, hc, alGet_alInsert_ne hc]

theorem mem_ipInsertMany {t : List (AllowedIP × Peer)} {cs : List AllowedIP}
    {p : Peer} {e : AllowedIP × Peer} (h : e ∈ ipInsertMany t cs p) :
    e ∈ t ∨ (e.2 = p ∧ e.1 ∈ cs) := by
  induction cs generalizing t with
  | nil => exact Or.inl h
  | cons c0 rest ih =>
    have h0 : e ∈ ipInsertMany (alInsert t c0 p) rest p := h
    rcases ih h0 with h1 | h1
    · rcases mem_alInsert.mp h1 with h2 | h2
      · subst h2
        exact Or.inr ⟨rfl, List.mem_cons_self _ _⟩
      · exact Or.inl h2.1
    · exact Or.inr ⟨h1.1, List.mem_cons_of_mem _ h1.2⟩

theorem keysNodup_ipInsertMany {t : List (AllowedIP × Peer)} {cs : List AllowedIP}
    {p : Peer} (h : keysNodup t) : keysNodup (ipInsertMany t cs p) := by
  induction cs generalizing t with
  | nil => exact h
  | cons c0 rest ih => exact ih (keysNodup_alInsert h)

theorem mem_ipRemovePeer {t : List (AllowedIP × Peer)} {p : Peer} {e : AllowedIP × Peer} :
    e ∈ ipRemovePeer t p ↔ e ∈ t ∧ e.2 ≠ p := by
  simp [ipRemovePeer, List.mem_filter]

theorem keysNodup_ipRemovePeer {t : List (AllowedIP × Peer)} {p : Peer}
    (h : keysNodup t) : keysNodup (ipRemovePeer t p) := by
  exact ((List.filter_sublist t).map Prod.fst).nodup h

theorem alGet_ipRemovePeer {t : List (AllowedIP × Peer)} {p q : Peer} {c : AllowedIP}
    (hn : keysNodup t) (h : alGet t c = some q) (hpq : q ≠ p) :
    alGet (ipRemovePeer t p) c = some q := by
  refine alGet_of_mem (keysNodup_ipRemovePeer hn) ?_
  exact mem_ipRemovePeer.mpr ⟨mem_of_alGet h, hpq⟩

/-- The device state container (Device in mod.rs). The event queue, tun
handle and notifier handles carry no state relevant to the claims; the
per-peer interior-mutable endpoint state is a store keyed by peer index. -/
structure Device where
  keyPair : Option (Key × Key)
  listenPort : Nat
  fwmark : Option Nat
  udp4 : Option UDPSocket
  udp6 : Option UDPSocket
  peers : List (Key × Peer)
  peersByIp : List (AllowedIP × Peer)
  peersByIdx : List (Nat × Peer)
  nextIndex : Nat
  endpoints : List (Nat × Endpoint)
  rateLimiter : Option RateLimiter
  useConnectedSocket : Bool
deriving DecidableEq

/-- A Rust panic (panic!/expect/assert!/todo!/unimplemented!): the message and
the device state at the moment of the panic. -/
structure DevPanic where
  msg : String
  state : Device
deriving DecidableEq

/-- The number of handshakes per second tolerated before using cookies
(HANDSHAKE_RATE_LIMIT in mod.rs). -/
def HANDSHAKE_RATE_LIMIT : Nat := 100

/-- Modelled from the spec: x25519 public-key derivation (the external
x25519_dalek crate); any fixed injective placeholder serves the model, the
claims constrain only which of the two stored keys flows where. -/
def derivePublic (priv : Key) : Key := 0 :: priv

/-- A device as built by Device::new: no key pair, no rate limiter, no
listening sockets, empty peer maps, next_index 0 (config defaults). -/
def freshDevice : Device :=
  { keyPair := none, listenPort := 0, fwmark := none, udp4 := none, udp6 := none,
    peers := [], peersByIp := [], peersByIdx := [], nextIndex := 0,
    endpoints := [], rateLimiter := none, useConnectedSocket := true }

/-- Modelled from the spec: Peer::shutdown_endpoint closes the connected
socket and preserves the address; here applied to the endpoint store at the
given peer index. -/
def shutdownConnAt (eps : List (Nat × Endpoint)) (idx : Nat) : List (Nat × Endpoint) :=
  eps.map (fun e => if e.1 = idx then (e.1, { e.2 with conn := none }) else e)

/-- Device::remove_peer: remove from the by-key map; if present, shut down
the endpoint, remove the by-index entry at the peer's index, and sweep the
trie by peer identity. -/
def Device.removePeer (d : Device) (pk : Key) : Device :=
  match alGet d.peers pk with
  | none => d
  | some peer =>
    { d with
      peers := alRemove d.peers pk,
      endpoints := shutdownConnAt d.endpoints peer.index,
      peersByIdx := alRemove d.peersByIdx peer.index,
      peersByIp := ipRemovePeer d.peersByIp peer }

/-- Device::update_peer. remove=true delegates to remove_peer; an existing
public key panics (modification unsupported); otherwise next_index() is
allocated (incrementing the counter, then asserting the allocated value is
below 2^24), the key pair is required (expect), a tunnel and peer are built
and inserted into all three indices. -/
def Device.updatePeer (d : Device) (pk : Key) (remove : Bool) (_replaceIps : Bool)
    (endpoint : Option SockAddr) (allowedIps : List AllowedIP)
    (keepalive : Option Nat) (presharedKey : Option Key) : Except DevPanic Device :=
  if remove then .ok (d.removePeer pk)
  else if (alGet d.peers pk).isSome then
    .error ⟨"Modifying existing peers is not yet supported. Remove and add again instead.", d⟩
  else
    let idx := d.nextIndex
    let d1 : Device := { d with nextIndex := d.nextIndex + 1 }
    if idx < 2 ^ 24 then
      match d1.keyPair with
      | none => .error ⟨"Private key must be set first", d1⟩
      | some kp =>
        let tunn := Tunn.new kp.1 pk presharedKey keepalive idx
        let peer : Peer :=
          { tunnel := tunn, index := idx, allowedIps := allowedIps,
            presharedKey := presharedKey }
        .ok { d1 with
              peers := alInsert d1.peers pk peer,
              peersByIdx := alInsert d1.peersByIdx idx peer,
              peersByIp := ipInsertMany d1.peersByIp allowedIps peer,
              endpoints := alInsert d1.endpoints idx ⟨endpoint, none⟩ }
    else .error ⟨"Too many peers created", d1⟩

/-- Device::clear_peers drops all three peer indices. -/
def Device.clearPeers (d : Device) : Device :=
  { d with peers := [], peersByIdx := [], peersByIp := [] }

/-- The record produced by the key-replacement branch of set_key: the new key
pair and rate limiter are stored, and every peer's tunnel is updated by
set_static_private where it succeeds (the same Arc is reachable from all
three indices, so all three maps see the update). -/
def setKeyApplied (d : Device) (priv : Key) (accepts : Tunn → Key → Key → Bool) : Device :=
  let pub := derivePublic priv
  let upd := fun (p : Peer) =>
    match p.tunnel.setStaticPrivate priv pub accepts with
    | .ok t => { p with tunnel := t }
    | .error _ => p
  { d with
    keyPair := some (priv, pub),
    rateLimiter := some ⟨pub, HANDSHAKE_RATE_LIMIT⟩,
    peers := d.peers.map (fun e => (e.1, upd e.2)),
    peersByIdx := d.peersByIdx.map (fun e => (e.1, upd e.2)),
    peersByIp := d.peersByIp.map (fun e => (e.1, upd e.2)) }

/-- Device::set_key: derive the public key; if it equals the current one the
call is a no-op; otherwise push the new static private key into every peer's
tunnel collecting the peers whose tunnel rejects it, store the new key pair
and a new rate limiter with capacity HANDSHAKE_RATE_LIMIT, and then, if any
peer was bad, hit unimplemented!() ("not implemented") — the source panics
after the key pair and rate limiter were already assigned. -/
def Device.setKey (d : Device) (priv : Key) (accepts : Tunn → Key → Key → Bool) :
    Except DevPanic Device :=
  let pub := derivePublic priv
  if d.keyPair.map Prod.snd = some pub then .ok d
  else
    let d1 := setKeyApplied d priv accepts
    if d.peers.any (fun e => !(accepts e.2.tunnel priv pub)) then
      .error ⟨"not implemented", d1⟩
    else .ok d1

/-- An acceptance oracle under which every tunnel accepts the new key. -/
def acceptAll : Tunn → Key → Key → Bool := fun _ _ _ => true

/-- Modelled from the spec: the OS environment seen by the device: a bind
request either fails or reports the kernel-assigned bound port, and the
SO_MARK setsockopt for a given mark either succeeds or fails. -/
structure NetEnv where
  bind4 : Nat → Option Nat
  bind6 : Nat → Option Nat
  fwmarkOk : Nat → Bool

/-- Device::set_fwmark: persist the mark first, then apply it to both
listeners and every peer's connected socket; any of those setsockopt calls
may fail (environment oracle), and the failure propagates as an error with
the mark already stored. When there is no socket to touch, no call is made
and the operation succeeds. -/
def Device.setFwmark (d : Device) (env : NetEnv) (mark : Nat) : Device × Bool :=
  let anyCall :=
    d.udp4.isSome || d.udp6.isSome ||
      d.endpoints.any (fun e =>
        d.peers.any (fun pe => pe.2.index == e.1) && e.2.conn.isSome)
  ({ d with fwmark := some mark }, !anyCall || env.fwmarkOk mark)

/-- A well-behaved OS: binding a nonzero port binds exactly that port, and a
kernel-assigned port (request 0) is nonzero. -/
def NetEnv.Honest (env : NetEnv) : Prop :=
  (∀ p q, env.bind4 p = some q → (p = 0 → q ≠ 0) ∧ (p ≠ 0 → q = p)) ∧
  (∀ p q, env.bind6 p = some q → (p = 0 → q ≠ 0) ∧ (p ≠ 0 → q = p))

/-- The shutdown loop at the top of open_listen_socket: for every peer in the
by-key map, close its connected socket. -/
def Device.shutdownAllPeerConns (d : Device) : Device :=
  { d with endpoints := d.endpoints.map (fun e =>
      if d.peers.any (fun pe => pe.2.index == e.1) then (e.1, { e.2 with conn := none })
      else e) }

/-- Device::open_listen_socket: drop and deregister the previous v4/v6
listeners, shut down every peer's connected socket, bind a fresh v4 socket
(reading back the kernel port when the request was 0), bind a fresh v6 socket
to the resulting port, store both and the listen port. The Bool is the
Result: false models the Err return (with the state mutated so far kept, as
the source mutates through &mut self). -/
def Device.openListenSocket (d : Device) (env : NetEnv) (port : Nat) : Device × Bool :=
  let d1 : Device := { d with udp4 := none, udp6 := none }
  let d1 := d1.shutdownAllPeerConns
  match env.bind4 port with
  | none => (d1, false)
  | some p4 =>
    let port1 := if port = 0 then p4 else port
    match env.bind6 port1 with
    | none => (d1, false)
    | some p6 =>
      ({ d1 with udp4 := some ⟨p4, false⟩, udp6 := some ⟨p6, true⟩,
                 listenPort := port1 }, true)

/-! ## The UAPI layer (api.rs) -/

/-- Hex serialization of a byte string (the KeyBytes Display form used for
key fields in UAPI responses). -/
def hexDigit (n : Nat) : Char :=
  if n < 10 then Char.ofNat (48 + n) else Char.ofNat (87 + n)

/-- Hex encoding of a list of bytes, two lowercase digits per byte. -/
def hexOfBytes (bs : List Nat) : List Char :=
  bs.foldr (fun b acc => hexDigit (b / 16 % 16) :: hexDigit (b % 16) :: acc) []

/-- One peer block of a get=1 response (GetPeer in api/command.rs). -/
structure GetPeer where
  publicKey : Key
  presharedKey : Option Key
  endpoint : Option SockAddr
  persistentKeepaliveInterval : Option Nat
  allowedIp : List AllowedIP
  lastHandshakeTimeSec : Option Nat
  lastHandshakeTimeNsec : Option Nat
  rxBytes : Option Nat
  txBytes : Option Nat
deriving DecidableEq

/-- A get=1 response (GetResponse in api/command.rs). -/
structure GetResponse where
  privateKey : Option Key
  listenPort : Option Nat
  fwmark : Option Nat
  peers : List GetPeer
deriving DecidableEq

/-- api_get, with the tunnel statistics and last-handshake oracles passed in
(Tunn::stats and time_since_last_handshake are outside the two source files).
Note that the source fills the private_key field from k.1, the second
component of the key pair, which is the derived PUBLIC key. -/
def Device.apiGet (d : Device) (stats : Peer → Nat × Nat)
    (lastHs : Peer → Option (Nat × Nat)) : GetResponse :=
  { privateKey := d.keyPair.map (fun k => k.2),
    listenPort := some d.listenPort,
    fwmark := d.fwmark,
    peers := d.peers.map (fun e =>
      { publicKey := e.1,
        presharedKey := none,
        endpoint := (alGet d.endpoints e.2.index).bind (fun ep => ep.addr),
        persistentKeepaliveInterval := e.2.tunnel.keepalive,
        allowedIp := e.2.allowedIps,
        lastHandshakeTimeSec := (lastHs e.2).map Prod.fst,
        lastHandshakeTimeNsec := (lastHs e.2).map Prod.snd,
        rxBytes := some (stats e.2).2,
        txBytes := some (stats e.2).1 }) }

/-- The errno returned for rebind (and fwmark) failures in api_set. -/
def EADDRINUSE : Nat := 98

/-- The set=1 response: an errno, 0 on success. -/
structure SetResponse where
  errno : Nat
deriving DecidableEq

/-- A set-or-unset value for the preshared_key peer field (an empty value in
the UAPI request parses to unset). -/
inductive SetUnset (α : Type) where
  | set (v : α)
  | unset
deriving DecidableEq

/-- The peer fields of a set=1 peer block (Peer in api/command.rs). -/
structure PeerCfg where
  publicKey : Key
  presharedKey : Option (SetUnset Key)
  endpoint : Option SockAddr
  persistentKeepaliveInterval : Option Nat
  allowedIp : List AllowedIP
deriving DecidableEq

/-- A set=1 peer block (SetPeer in api/command.rs). -/
structure SetPeerCfg where
  peer : PeerCfg
  remove : Bool
  updateOnly : Bool
deriving DecidableEq

/-- A parsed set=1 request (Set in api/command.rs). -/
structure SetReq where
  privateKey : Option Key
  listenPort : Option Nat
  fwmark : Option Nat
  replacePeers : Bool
  protocolVersion : Option String
  peers : List SetPeerCfg
deriving DecidableEq

/-- The preshared_key mapping inside api_set's peer loop: an explicit unset
hits todo!("not sure how to handle this"). -/
def resolvePsk (d : Device) : Option (SetUnset Key) → Except DevPanic (Option Key)
  | none => .ok none
  | some (.set k) => .ok (some k)
  | some .unset => .error ⟨"not sure how to handle this", d⟩

/-- The peer loop at the end of api_set: skip blocks with update_only for
unknown keys, resolve the preshared key, and call update_peer. -/
def Device.apiSetPeers : Device → List SetPeerCfg → Except DevPanic Device
  | d, [] => .ok d
  | d, sp :: rest =>
    if sp.updateOnly && !(alGet d.peers sp.peer.publicKey).isSome then
      d.apiSetPeers rest
    else
      match resolvePsk d sp.peer.presharedKey with
      | .error e => .error e
      | .ok psk =>
        match d.updatePeer sp.peer.publicKey sp.remove false sp.peer.endpoint
              sp.peer.allowedIp sp.peer.persistentKeepaliveInterval psk with
        | .error e => .error e
        | .ok d1 => d1.apiSetPeers rest

/-- The tail of api_set after the fwmark step: protocol_version (anything but
"1" hits a todo!), then the peer loop and errno=0. -/
def Device.apiSetProto (d : Device) (set : SetReq) : Except DevPanic (SetResponse × Device) :=
  let protoOk :=
    match set.protocolVersion with
    | none => true
    | some v => v == "1"
  if protoOk then
    match d.apiSetPeers set.peers with
    | .error e => .error e
    | .ok d1 => .ok (⟨0⟩, d1)
  else .error ⟨"handle invalid protocol version", d⟩

/-- The tail of api_set after the listen_port step: a requested fwmark is
applied to the sockets, and a setsockopt failure returns errno=EADDRINUSE
early (with the mark already persisted); then protocol_version and the peer
loop. -/
def Device.apiSetTail (d : Device) (env : NetEnv) (set : SetReq) :
    Except DevPanic (SetResponse × Device) :=
  match set.fwmark with
  | some m =>
    match d.setFwmark env m with
    | (d1, false) => .ok (⟨EADDRINUSE⟩, d1)
    | (d1, true) => d1.apiSetProto set
  | none => d.apiSetProto set

/-- The head of api_set: replace_peers clears the peer set, then private_key
runs set_key (whose bad-peer path panics). -/
def Device.apiSetPrelude (d : Device) (accepts : Tunn → Key → Key → Bool)
    (set : SetReq) : Except DevPanic Device :=
  let d := if set.replacePeers then d.clearPeers else d
  match set.privateKey with
  | some k => d.setKey k accepts
  | none => .ok d

/-- api_set: replace_peers clears the peer set, private_key runs set_key,
listen_port rebinds (a failure returns errno=EADDRINUSE early, keeping the
mutations made so far), then fwmark (failure also EADDRINUSE),
protocol_version and the peer loop. -/
def Device.apiSet (d : Device) (env : NetEnv) (accepts : Tunn → Key → Key → Bool)
    (set : SetReq) : Except DevPanic (SetResponse × Device) :=
  match d.apiSetPrelude accepts set with
  | .error e => .error e
  | .ok d =>
    match set.listenPort with
    | some p =>
      match d.openListenSocket env p with
      | (d1, false) => .ok (⟨EADDRINUSE⟩, d1)
      | (d1, true) => d1.apiSetTail env set
    | none => d.apiSetTail env set

/-! ## The UDP-ingress and connected-socket pipelines (mod.rs handlers) -/

/-- The TunnResult variants returned by the Tunnel collaborator. -/
inductive TunnResult where
  | done
  | err
  | writeToNetwork (pkt : List Nat)
  | writeToTunnelV4 (pkt : List Nat) (a : Nat)
  | writeToTunnelV6 (pkt : List Nat) (a : Nat)
deriving DecidableEq

/-- Observable effects of processing one inbound datagram. -/
inductive UdpEffect where
  | sendto (pkt : List Nat)
  | writeTun4 (pkt : List Nat)
  | writeTun6 (pkt : List Nat)
  | handledVerified (peerIndex : Nat)
  | setEndpoint (peerIndex : Nat)
  | connectEndpoint (peerIndex : Nat)
deriving DecidableEq

/-- Result of the match on a TunnResult inside an ingress handler: the
emitted effects, whether the pending queue must be flushed, and whether the
rest of the per-datagram body is skipped (the Err continue). -/
structure DispatchOut where
  effects : List UdpEffect
  flush : Bool
  skipRest : Bool
deriving DecidableEq

/-- The match on tunnel.handle_verified_packet in the UDP-ingress handler:
WriteToNetwork is sent back and sets the flush flag; WriteToTunnelV4/V6 is
written to the tun interface iff peer.is_allowed_ip holds on the inner
address; Err skips the rest of the datagram body (continue). -/
def udpHandlerDispatch (peer : Peer) (res : TunnResult) : DispatchOut :=
  match res with
  | .done => ⟨[], false, false⟩
  | .err => ⟨[], false, true⟩
  | .writeToNetwork pkt => ⟨[.sendto pkt], true, false⟩
  | .writeToTunnelV4 pkt a =>
    ⟨if peer.isAllowedIp (.v4 a) then [.writeTun4 pkt] else [], false, false⟩
  | .writeToTunnelV6 pkt a =>
    ⟨if peer.isAllowedIp (.v6 a) then [.writeTun6 pkt] else [], false, false⟩

/-- The match on tunnel.decapsulate in the connected-socket handler: the same
allowed-IP guard on WriteToTunnelV4/V6; Err only logs (no continue). -/
def connHandlerDispatch (peer : Peer) (res : TunnResult) : DispatchOut :=
  match res with
  | .done => ⟨[], false, false⟩
  | .err => ⟨[], false, false⟩
  | .writeToNetwork pkt => ⟨[.sendto pkt], true, false⟩
  | .writeToTunnelV4 pkt a =>
    ⟨if peer.isAllowedIp (.v4 a) then [.writeTun4 pkt] else [], false, false⟩
  | .writeToTunnelV6 pkt a =>
    ⟨if peer.isAllowedIp (.v6 a) then [.writeTun6 pkt] else [], false, false⟩

/-- Modelled from the spec: the data of a HandshakeInit packet, opaque to the
device (only the anonymous-parse oracle looks inside). -/
structure HsInitData where
  senderIdx : Nat
  body : List Nat
deriving DecidableEq

/-- The parsed packet forms delivered by the rate limiter; the last three
carry the 32-bit receiver index. -/
inductive Packet where
  | handshakeInit (p : HsInitData)
  | handshakeResponse (receiverIdx : Nat)
  | packetCookieReply (receiverIdx : Nat)
  | packetData (receiverIdx : Nat)
deriving DecidableEq

/-- Outcome of RateLimiter::verify_packet on one datagram: a parsed packet, a
cookie to send back, or a drop. -/
inductive VerifyOutcome where
  | ok (p : Packet)
  | writeCookie (cookie : List Nat)
  | drop
deriving DecidableEq

/-- One datagram of the UDP-ingress handler after the batched receive: the
key pair and rate limiter are demanded (expect/unwrap), the rate limiter's
verdict is dispatched, the peer is looked up (anonymous handshake parse plus
by-key lookup for HandshakeInit, by-index lookup on receiver_idx >> 8
otherwise), and a found peer's tunnel handles the verified packet, followed
by the flush drain, set_endpoint and the optional connected-socket creation.
The anonymous parser, the tunnel, and the flush queue are oracles. -/
def Device.udpDatagramStep (d : Device)
    (anonParse : Key → Key → HsInitData → Option Key)
    (verify : VerifyOutcome)
    (hv : Peer → Packet → TunnResult)
    (drainQ : List (List Nat)) : Except DevPanic (List UdpEffect) :=
  match d.keyPair with
  | none => .error ⟨"Key not set", d⟩
  | some kp =>
    match d.rateLimiter with
    | none => .error ⟨"rate limiter unwrap on None", d⟩
    | some _ =>
      match verify with
      | .writeCookie cookie => .ok [.sendto cookie]
      | .drop => .ok []
      | .ok pkt =>
        let peerOpt : Option Peer :=
          match pkt with
          | .handshakeInit p => (anonParse kp.1 kp.2 p).bind (fun k => alGet d.peers k)
          | .handshakeResponse i => alGet d.peersByIdx (i >>> 8)
          | .packetCookieReply i => alGet d.peersByIdx (i >>> 8)
          | .packetData i => alGet d.peersByIdx (i >>> 8)
        match peerOpt with
        | none => .ok []
        | some peer =>
          let out := udpHandlerDispatch peer (hv peer pkt)
          if out.skipRest then .ok [.handledVerified peer.index]
          else
            .ok ([.handledVerified peer.index] ++ out.effects ++
                 (if out.flush then drainQ.map UdpEffect.sendto else []) ++
                 [.setEndpoint peer.index] ++
                 (if d.useConnectedSocket &&
                     ((alGet d.endpoints peer.index).bind (fun e => e.conn)).isNone
                  then [.connectEndpoint peer.index] else []))

/-! ## Operation sequences and the index-consistency invariant -/

/-- A peer-lifecycle operation on the device (the operations named by the
index-consistency property). -/
inductive DevOp where
  | update (pk : Key) (remove : Bool) (replaceIps : Bool) (endpoint : Option SockAddr)
           (allowedIps : List AllowedIP) (keepalive : Option Nat) (psk : Option Key)
  | removePeerOp (pk : Key)
  | clearPeersOp
deriving DecidableEq

/-- Apply one operation; panics are propagated. -/
def applyOp (d : Device) : DevOp → Except DevPanic Device
  | .update pk rm rip ep ips ka psk => d.updatePeer pk rm rip ep ips ka psk
  | .removePeerOp pk => .ok (d.removePeer pk)
  | .clearPeersOp => .ok d.clearPeers

/-- The CIDRs an operation would insert into the trie (only a non-remove
update inserts). -/
def DevOp.addIps : DevOp → List AllowedIP
  | .update _ false _ _ ips _ _ => ips
  | _ => []

/-- Run a sequence of operations; a panic aborts the run. -/
def runOps : Device → List DevOp → Except DevPanic Device
  | d, [] => .ok d
  | d, op :: ops =>
    match applyOp d op with
    | .ok d1 => runOps d1 ops
    | .error e => .error e

/-- The freshness side condition forced by the replace-on-insert trie: the
CIDRs inserted by an operation are not currently held by any peer. -/
def OpFresh (d : Device) (op : DevOp) : Prop :=
  ∀ e ∈ d.peers, ∀ c ∈ op.addIps, c ∉ e.2.allowedIps

/-- The trace of (state, operation) pairs visited by a run (stopping at a
panic). -/
def opTrace (d : Device) : List DevOp → List (Device × DevOp)
  | [] => []
  | op :: ops =>
    (d, op) ::
      (match applyOp d op with
       | .ok d1 => opTrace d1 ops
       | .error _ => [])

/-- Every operation of the run satisfies the freshness side condition in the
state where it executes. -/
def SeqFresh (d : Device) (ops : List DevOp) : Prop :=
  ∀ e ∈ opTrace d ops, OpFresh e.1 e.2

/-- The index-consistency property of the claim: every by-key peer is found
in the by-index map under its index and in the trie at each of its CIDRs,
and every secondary-index entry is the peer of some by-key entry. -/
def IndexConsistent (d : Device) : Prop :=
  (∀ e ∈ d.peers, alGet d.peersByIdx e.2.index = some e.2) ∧
  (∀ e ∈ d.peers, ∀ c ∈ e.2.allowedIps, alGet d.peersByIp c = some e.2) ∧
  (∀ e ∈ d.peersByIdx, ∃ e2 ∈ d.peers, e2.2 = e.2) ∧
  (∀ e ∈ d.peersByIp, ∃ e2 ∈ d.peers, e2.2 = e.2)

/-- The full inductive invariant: index consistency plus the bookkeeping that
makes it preservable (distinct keys in every map, by-index keys are the
peer's index, trie keys come from their peer's CIDR list, all indices are
below the next-index counter and pairwise distinct, and CIDR sets of distinct
peers are disjoint). -/
def DevInv (d : Device) : Prop :=
  keysNodup d.peers ∧ keysNodup d.peersByIdx ∧ keysNodup d.peersByIp ∧
  (∀ e ∈ d.peers, alGet d.peersByIdx e.2.index = some e.2) ∧
  (∀ e ∈ d.peersByIdx, e.1 = e.2.index ∧ ∃ e2 ∈ d.peers, e2.2 = e.2) ∧
  (∀ e ∈ d.peers, ∀ c ∈ e.2.allowedIps, alGet d.peersByIp c = some e.2) ∧
  (∀ e ∈ d.peersByIp, e.1 ∈ e.2.allowedIps ∧ ∃ e2 ∈ d.peers, e2.2 = e.2) ∧
  (∀ e ∈ d.peers, e.2.index < d.nextIndex) ∧
  (∀ e ∈ d.peers, ∀ e2 ∈ d.peers, e ≠ e2 → e.2.index ≠ e2.2.index)

instance (d : Device) : Decidable (IndexConsistent d) := by
  unfold IndexConsistent; infer_instance

instance (d : Device) : Decidable (DevInv d) := by
  unfold DevInv; infer_instance

instance (d : Device) (op : DevOp) : Decidable (OpFresh d op) := by
  unfold OpFresh; infer_instance

instance (d : Device) (ops : List DevOp) : Decidable (SeqFresh d ops) := by
  unfold SeqFresh; infer_instance

/-! ## Invariant preservation proofs -/

theorem alEntry_eq_of_key_eq {α β : Type} [DecidableEq α] {m : List (α × β)}
    (hn : keysNodup m) {e e' : α × β} (he : e ∈ m) (he' : e' ∈ m)
    (hk : e.1 = e'.1) : e = e' := by
  induction m with
  | nil => simp at he
  | cons a rest ih =>
    rcases List.mem_cons.mp he with h1 | h1 <;> rcases List.mem_cons.mp he' with h2 | h2
    · rw [h1, h2]
    · exfalso
      subst h1
      exact (List.nodup_cons.mp hn).1 (by rw [hk]; exact List.mem_map.mpr ⟨e', h2, rfl⟩)
    · exfalso
      subst h2
      exact (List.nodup_cons.mp hn).1 (by rw [← hk]; exact List.mem_map.mpr ⟨e, h1, rfl⟩)
    · exact ih (List.nodup_cons.mp hn).2 h1 h2

/-- The peer built by the add path of update_peer. -/
def newPeerOf (d : Device) (pk : Key) (ips : List AllowedIP) (ka : Option Nat)
    (psk : Option Key) (kp : Key × Key) : Peer :=
  { tunnel := Tunn.new kp.1 pk psk ka d.nextIndex, index := d.nextIndex,
    allowedIps := ips, presharedKey := psk }

/-- The device produced by a successful add path of update_peer. -/
def addedDevice (d : Device) (pk : Key) (ep : Option SockAddr) (ips : List AllowedIP)
    (ka : Option Nat) (psk : Option Key) (kp : Key × Key) : Device :=
  { d with
    nextIndex := d.nextIndex + 1,
    peers := alInsert d.peers pk (newPeerOf d pk ips ka psk kp),
    peersByIdx := alInsert d.peersByIdx d.nextIndex (newPeerOf d pk ips ka psk kp),
    peersByIp := ipInsertMany d.peersByIp ips (newPeerOf d pk ips ka psk kp),
    endpoints := alInsert d.endpoints d.nextIndex ⟨ep, none⟩ }

theorem updatePeer_add_ok {d : Device} {pk : Key} {rip : Bool} {ep : Option SockAddr}
    {ips : List AllowedIP} {ka : Option Nat} {psk : Option Key} {d' : Device}
    (hup : d.updatePeer pk false rip ep ips ka psk = .ok d') :
    ∃ kp, d.keyPair = some kp ∧ alGet d.peers pk = none ∧ d.nextIndex < 2 ^ 24 ∧
      d' = addedDevice d pk ep ips ka psk kp := by
  unfold Device.updatePeer at hup
  cases halGet : alGet d.peers pk with
  | some p => rw [halGet] at hup; simp at hup
  | none =>
    rw [halGet] at hup
    by_cases hidx : d.nextIndex < 2 ^ 24
    · have hidx2 : d.nextIndex < 16777216 := by simpa using hidx
      cases hkp : d.keyPair with
      | none => simp [hidx, hidx2, hkp] at hup
      | some kp =>
        simp [hidx, hidx2, hkp] at hup
        refine ⟨kp, rfl, rfl, hidx, ?_⟩
        rw [← hup]
        simp [addedDevice, newPeerOf, hkp]
    · have hidx2 : ¬ d.nextIndex < 16777216 := by simpa using hidx
      simp [hidx, hidx2] at hup

theorem devInv_clearPeers {d : Device} (h : DevInv d) : DevInv d.clearPeers := by
  refine ⟨?_, ?_, ?_, ?_, ?_, ?_, ?_, ?_, ?_⟩ <;>
    simp [Device.clearPeers, keysNodup]

theorem devInv_removePeer {d : Device} (pk : Key) (h : DevInv d) :
    DevInv (d.removePeer pk) := by
  obtain ⟨hN1, hN2, hN3, hA, hB, hC, hD, hE, hG⟩ := h
  unfold Device.removePeer
  cases hget : alGet d.peers pk with
  | none => exact ⟨hN1, hN2, hN3, hA, hB, hC, hD, hE, hG⟩
  | some p0 =>
    have hp0 : (pk, p0) ∈ d.peers := mem_of_alGet hget
    have hval : ∀ e ∈ d.peers, e.1 ≠ pk → e.2 ≠ p0 := by
      intro e he hne hv
      have hneq : e ≠ (pk, p0) := by
        intro hh
        rw [hh] at hne
        exact hne rfl
      exact hG e he (pk, p0) hp0 hneq (by rw [hv])
    have hvalIdx : ∀ e ∈ d.peers, e.1 ≠ pk → e.2.index ≠ p0.index := by
      intro e he hne
      have hneq : e ≠ (pk, p0) := by
        intro hh
        rw [hh] at hne
        exact hne rfl
      exact hG e he (pk, p0) hp0 hneq
    refine ⟨?_, ?_, ?_, ?_, ?_, ?_, ?_, ?_, ?_⟩
    · exact keysNodup_alRemove pk hN1
    · exact keysNodup_alRemove p0.index hN2
    · exact keysNodup_ipRemovePeer hN3
    · intro e he
      obtain ⟨heM, heK⟩ := mem_alRemove.mp he
      show alGet (alRemove d.peersByIdx p0.index) e.2.index = some e.2
      rw [alGet_alRemove_ne (hvalIdx e heM heK)]
      exact hA e heM
    · intro e he
      obtain ⟨heM, heK⟩ := mem_alRemove.mp he
      obtain ⟨hkey, e2, he2, hv2⟩ := hB e heM
      have hk2 : e2.1 ≠ pk := by
        intro hh
        have he2eq : e2 = (pk, p0) := alEntry_eq_of_key_eq hN1 he2 hp0 hh
        have hv2p : p0 = e.2 := by rw [he2eq] at hv2; exact hv2
        apply heK
        rw [hkey, ← hv2p]
      exact ⟨hkey, e2, mem_alRemove.mpr ⟨he2, hk2⟩, hv2⟩
    · intro e he c hc
      obtain ⟨heM, heK⟩ := mem_alRemove.mp he
      exact alGet_ipRemovePeer hN3 (hC e heM c hc) (hval e heM heK)
    · intro e he
      obtain ⟨heM, hene⟩ := mem_ipRemovePeer.mp he
      obtain ⟨hcid, e2, he2, hv2⟩ := hD e heM
      have hk2 : e2.1 ≠ pk := by
        intro hh
        have he2eq : e2 = (pk, p0) := alEntry_eq_of_key_eq hN1 he2 hp0 hh
        have hv2p : p0 = e.2 := by rw [he2eq] at hv2; exact hv2
        exact hene hv2p.symm
      exact ⟨hcid, e2, mem_alRemove.mpr ⟨he2, hk2⟩, hv2⟩
    · intro e he
      exact hE e (mem_alRemove.mp he).1
    · intro e he e2 he2 hne
      exact hG e (mem_alRemove.mp he).1 e2 (mem_alRemove.mp he2).1 hne

theorem devInv_addedDevice {d : Device} {pk : Key} {ep : Option SockAddr}
    {ips : List AllowedIP} {ka : Option Nat} {psk : Option Key} {kp : Key × Key}
    (h : DevInv d) (hget : alGet d.peers pk = none)
    (hfresh : ∀ e ∈ d.peers, ∀ c ∈ ips, c ∉ e.2.allowedIps) :
    DevInv (addedDevice d pk ep ips ka psk kp) := by
  obtain ⟨hN1, hN2, hN3, hA, hB, hC, hD, hE, hG⟩ := h
  set np := newPeerOf d pk ips ka psk kp with hnp
  have hnpIdx : np.index = d.nextIndex := rfl
  have hPkFresh : ∀ e ∈ d.peers, e.1 ≠ pk := by
    intro e he hh
    obtain ⟨k0, v0⟩ := e
    have hh2 : k0 = pk := hh
    subst hh2
    have h2 := alGet_of_mem hN1 he
    rw [hget] at h2
    exact Option.noConfusion h2
  have hIdxNe : ∀ e ∈ d.peers, e.2.index ≠ d.nextIndex := fun e he => Nat.ne_of_lt (hE e he)
  have hValNe : ∀ e ∈ d.peers, e.2 ≠ np := by
    intro e he hh
    exact hIdxNe e he (by rw [hh, hnpIdx])
  have hIdxKeyNe : ∀ e ∈ d.peersByIdx, e.1 ≠ d.nextIndex := by
    intro e he
    obtain ⟨hkey, e2, he2, hv2⟩ := hB e he
    rw [hkey, ← hv2]
    exact hIdxNe e2 he2
  have hIpKeyFresh : ∀ e ∈ d.peersByIp, e.1 ∉ ips := by
    intro e he hin
    obtain ⟨hcid, e2, he2, hv2⟩ := hD e he
    exact hfresh e2 he2 e.1 hin (by rw [hv2]; exact hcid)
  refine ⟨?_, ?_, ?_, ?_, ?_, ?_, ?_, ?_, ?_⟩
  · exact keysNodup_alInsert hN1
  · exact keysNodup_alInsert hN2
  · exact keysNodup_ipInsertMany hN3
  · intro e he
    show alGet (alInsert d.peersByIdx d.nextIndex np) e.2.index = some e.2
    rcases mem_alInsert.mp he with h1 | ⟨h1, h2⟩
    · rw [h1]
      show alGet (alInsert d.peersByIdx d.nextIndex np) np.index = some np
      rw [hnpIdx]
      exact alGet_alInsert_self
    · rw [alGet_alInsert_ne (hIdxNe e h1)]
      exact hA e h1
  · intro e he
    rcases mem_alInsert.mp he with h1 | ⟨h1, h2⟩
    · rw [h1]
      exact ⟨hnpIdx.symm, (pk, np), mem_alInsert.mpr (Or.inl rfl), rfl⟩
    · obtain ⟨hkey, e2, he2, hv2⟩ := hB e h1
      exact ⟨hkey, e2, mem_alInsert.mpr (Or.inr ⟨he2, hPkFresh e2 he2⟩), hv2⟩
  · intro e he c hc
    show alGet (ipInsertMany d.peersByIp ips np) c = some e.2
    rw [alGet_ipInsertMany]
    rcases mem_alInsert.mp he with h1 | ⟨h1, h2⟩
    · rw [h1] at hc ⊢
      have hcips : c ∈ ips := hc
      simp [hcips]
    · have hcni : c ∉ ips := fun hcin => hfresh e h1 c hcin hc
      rw [if_neg hcni]
      exact hC e h1 c hc
  · intro e he
    rcases mem_ipInsertMany he with h1 | ⟨h1, h2⟩
    · obtain ⟨hcid, e2, he2, hv2⟩ := hD e h1
      exact ⟨hcid, e2, mem_alInsert.mpr (Or.inr ⟨he2, hPkFresh e2 he2⟩), hv2⟩
    · refine ⟨?_, (pk, np), mem_alInsert.mpr (Or.inl rfl), h1.symm⟩
      rw [h1]
      exact h2
  · intro e he
    show e.2.index < d.nextIndex + 1
    rcases mem_alInsert.mp he with h1 | ⟨h1, h2⟩
    · rw [h1]
      exact Nat.lt_succ_self _
    · exact Nat.lt_succ_of_lt (hE e h1)
  · intro e he e2 he2 hne
    rcases mem_alInsert.mp he with h1 | ⟨h1, hk1⟩ <;>
      rcases mem_alInsert.mp he2 with h2 | ⟨h2, hk2⟩
    · rw [h1, h2] at hne
      exact absurd rfl hne
    · rw [h1]
      show np.index ≠ e2.2.index
      rw [hnpIdx]
      exact fun hh => hIdxNe e2 h2 hh.symm
    · rw [h2]
      show e.2.index ≠ np.index
      rw [hnpIdx]
      exact hIdxNe e h1
    · exact hG e h1 e2 h2 hne

theorem devInv_applyOp {d : Device} {op : DevOp} {d' : Device}
    (h : DevInv d) (hf : OpFresh d op) (hap : applyOp d op = .ok d') : DevInv d' := by
  cases op with
  | update pk rm rip ep ips ka psk =>
    cases rm with
    | true =>
      have hap2 : Except.ok (ε := DevPanic) (d.removePeer pk) = .ok d' := hap
      injection hap2 with hap2
      rw [← hap2]
      exact devInv_removePeer pk h
    | false =>
      have hfresh : ∀ e ∈ d.peers, ∀ c ∈ ips, c ∉ e.2.allowedIps := by
        intro e he c hc
        exact hf e he c hc
      have hap2 : d.updatePeer pk false rip ep ips ka psk = .ok d' := hap
      obtain ⟨kp, hkp, hget, hidx, rfl⟩ := updatePeer_add_ok hap2
      exact devInv_addedDevice h hget hfresh
  | removePeerOp pk =>
    injection hap with hap
    rw [← hap]
    exact devInv_removePeer pk h
  | clearPeersOp =>
    injection hap with hap
    rw [← hap]
    exact devInv_clearPeers h

theorem devInv_runOps {d : Device} {ops : List DevOp} {d' : Device}
    (h : DevInv d) (hf : SeqFresh d ops) (hr : runOps d ops = .ok d') : DevInv d' := by
  induction ops generalizing d with
  | nil =>
    injection hr with hr
    rw [← hr]
    exact h
  | cons op ops ih =>
    rw [runOps] at hr
    cases hap : applyOp d op with
    | error e =>
      rw [hap] at hr
      exact absurd hr (by simp)
    | ok d1 =>
      rw [hap] at hr
      have hof : OpFresh d op := hf (d, op) (by rw [opTrace]; exact List.mem_cons_self _ _)
      have hsf : SeqFresh d1 ops := by
        intro e he
        refine hf e ?_
        rw [opTrace, hap]
        exact List.mem_cons_of_mem _ he
      exact ih (devInv_applyOp h hof hap) hsf hr

theorem indexConsistent_of_devInv {d : Device} (h : DevInv d) : IndexConsistent d := by
  obtain ⟨hN1, hN2, hN3, hA, hB, hC, hD, hE, hG⟩ := h
  exact ⟨hA, hC, fun e he => (hB e he).2, fun e he => (hD e he).2⟩

/-! ## The unconditional no-orphans direction -/

theorem alGet_none_not_key {α β : Type} [DecidableEq α] {m : List (α × β)} {k : α}
    (h : alGet m k = none) : ∀ e ∈ m, e.1 ≠ k := by
  induction m with
  | nil =>
    intro e he
    simp at he
  | cons a rest ih =>
    intro e he
    by_cases ha : a.1 = k
    · rw [alGet, if_pos ha] at h
      exact absurd h (by simp)
    · rw [alGet, if_neg ha] at h
      rcases List.mem_cons.mp he with h1 | h1
      · rw [h1]
        exact ha
      · exact ih h e h1

/-- The no-orphans half of index consistency: every entry of the by-index map
and of the trie is the peer of some by-key entry. -/
def NoOrphans (d : Device) : Prop :=
  (∀ e ∈ d.peersByIdx, ∃ e2 ∈ d.peers, e2.2 = e.2) ∧
  (∀ e ∈ d.peersByIp, ∃ e2 ∈ d.peers, e2.2 = e.2)

/-- The weak invariant that preserves NoOrphans under every operation, with
no freshness side condition: distinct by-key keys, by-index keys equal to
their peer's index, and no orphans. -/
def DevInvW (d : Device) : Prop :=
  keysNodup d.peers ∧ (∀ e ∈ d.peersByIdx, e.1 = e.2.index) ∧ NoOrphans d

instance (d : Device) : Decidable (NoOrphans d) := by
  unfold NoOrphans; infer_instance

instance (d : Device) : Decidable (DevInvW d) := by
  unfold DevInvW; infer_instance

theorem devInvW_removePeer {d : Device} (pk : Key) (h : DevInvW d) :
    DevInvW (d.removePeer pk) := by
  obtain ⟨hN1, hKey, hIdx, hIp⟩ := h
  unfold Device.removePeer
  cases hget : alGet d.peers pk with
  | none => exact ⟨hN1, hKey, hIdx, hIp⟩
  | some p0 =>
    refine ⟨keysNodup_alRemove pk hN1, ?_, ?_, ?_⟩
    · intro e he
      exact hKey e (mem_alRemove.mp he).1
    · intro e he
      obtain ⟨heM, heK⟩ := mem_alRemove.mp he
      obtain ⟨e2, he2, hv2⟩ := hIdx e heM
      have hk2 : e2.1 ≠ pk := by
        intro hh
        obtain ⟨k0, v0⟩ := e2
        have hh2 : k0 = pk := hh
        subst hh2
        have hv0 : v0 = e.2 := hv2
        have hp0 := alGet_of_mem hN1 he2
        rw [hget] at hp0
        injection hp0 with hp0
        apply heK
        rw [hKey e heM, ← hv0, ← hp0]
      exact ⟨e2, mem_alRemove.mpr ⟨he2, hk2⟩, hv2⟩
    · intro e he
      obtain ⟨heM, hene⟩ := mem_ipRemovePeer.mp he
      obtain ⟨e2, he2, hv2⟩ := hIp e heM
      have hk2 : e2.1 ≠ pk := by
        intro hh
        obtain ⟨k0, v0⟩ := e2
        have hh2 : k0 = pk := hh
        subst hh2
        have hv0 : v0 = e.2 := hv2
        have hp0 := alGet_of_mem hN1 he2
        rw [hget] at hp0
        injection hp0 with hp0
        exact hene (by rw [← hv0, ← hp0])
      exact ⟨e2, mem_alRemove.mpr ⟨he2, hk2⟩, hv2⟩

theorem devInvW_addedDevice {d : Device} {pk : Key} {ep : Option SockAddr}
    {ips : List AllowedIP} {ka : Option Nat} {psk : Option Key} {kp : Key × Key}
    (h : DevInvW d) (hget : alGet d.peers pk = none) :
    DevInvW (addedDevice d pk ep ips ka psk kp) := by
  obtain ⟨hN1, hKey, hIdx, hIp⟩ := h
  set np := newPeerOf d pk ips ka psk kp with hnp
  have hPkFresh : ∀ e ∈ d.peers, e.1 ≠ pk := alGet_none_not_key hget
  refine ⟨keysNodup_alInsert hN1, ?_, ?_, ?_⟩
  · intro e he
    rcases mem_alInsert.mp he with h1 | ⟨h1, h2⟩
    · rw [h1]
      rfl
    · exact hKey e h1
  · intro e he
    rcases mem_alInsert.mp he with h1 | ⟨h1, h2⟩
    · exact ⟨(pk, np), mem_alInsert.mpr (Or.inl rfl), by rw [h1]⟩
    · obtain ⟨e2, he2, hv2⟩ := hIdx e h1
      exact ⟨e2, mem_alInsert.mpr (Or.inr ⟨he2, hPkFresh e2 he2⟩), hv2⟩
  · intro e he
    rcases mem_ipInsertMany he with h1 | ⟨h1, h2⟩
    · obtain ⟨e2, he2, hv2⟩ := hIp e h1
      exact ⟨e2, mem_alInsert.mpr (Or.inr ⟨he2, hPkFresh e2 he2⟩), hv2⟩
    · exact ⟨(pk, np), mem_alInsert.mpr (Or.inl rfl), h1.symm⟩

theorem devInvW_applyOp {d : Device} {op : DevOp} {d' : Device}
    (h : DevInvW d) (hap : applyOp d op = .ok d') : DevInvW d' := by
  cases op with
  | update pk rm rip ep ips ka psk =>
    cases rm with
    | true =>
      have hap2 : Except.ok (ε := DevPanic) (d.removePeer pk) = .ok d' := hap
      injection hap2 with hap2
      rw [← hap2]
      exact devInvW_removePeer pk h
    | false =>
      have hap2 : d.updatePeer pk false rip ep ips ka psk = .ok d' := hap
      obtain ⟨kp, hkp, hget, hidx, rfl⟩ := updatePeer_add_ok hap2
      exact devInvW_addedDevice h hget
  | removePeerOp pk =>
    injection hap with hap
    rw [← hap]
    exact devInvW_removePeer pk h
  | clearPeersOp =>
    injection hap with hap
    rw [← hap]
    refine ⟨?_, ?_, ?_, ?_⟩ <;> simp [Device.clearPeers, keysNodup]

theorem devInvW_runOps {d : Device} {ops : List DevOp} {d' : Device}
    (h : DevInvW d) (hr : runOps d ops = .ok d') : DevInvW d' := by
  induction ops generalizing d with
  | nil =>
    injection hr with hr
    rw [← hr]
    exact h
  | cons op ops ih =>
    rw [runOps] at hr
    cases hap : applyOp d op with
    | error e =>
      rw [hap] at hr
      exact absurd hr (by simp)
    | ok d1 =>
      rw [hap] at hr
      exact ih (devInvW_applyOp h hap) hr

/-! ## Claim C1 -/

/-- A device with the key pair set, from which peers can be added. -/
def c1Dev0 : Device := ((freshDevice.setKey [1] acceptAll).toOption).getD freshDevice

/-- The CIDR 10.0.0.0/24. -/
def c1CidrA : AllowedIP := ⟨.v4 167772160, 24⟩

/-- Two adds sharing the same allowed CIDR. -/
def c1Ops : List DevOp :=
  [.update [10] false false none [c1CidrA] none none,
   .update [11] false false none [c1CidrA] none none]

/-- The device after the two adds of c1Ops. -/
def c1DevBad : Device := ((runOps c1Dev0 c1Ops).toOption).getD freshDevice

/-- Claim C1, counterexample: starting from a device satisfying the full
invariant, adding two distinct peers that share one allowed CIDR leaves the
first peer present in the by-key map while the trie entry at its CIDR holds
the second peer (AllowedIps::insert replaces the value at an exact prefix),
so the claimed index consistency fails after this operation sequence. -/
theorem index_consistency_counterexample :
    DevInv c1Dev0 ∧ runOps c1Dev0 c1Ops = .ok c1DevBad ∧ ¬ IndexConsistent c1DevBad := by
  decide

/-- Claim C1 (amended): after any sequence of update_peer, remove_peer and
clear_peers operations starting from a device satisfying the device
invariant, and in which no operation adds an allowed CIDR currently held by
an existing peer (the trie insert replaces the value stored at an exact
prefix, so a duplicated CIDR re-routes to the newest peer), the indices are
consistent: every peer of the by-key map is mapped back to itself by the
by-index map under its index and by the trie at each of its allowed CIDRs,
and every entry of the by-index map and of the trie is the peer of some
by-key entry. The no-orphans direction needs no freshness condition: it holds
after every operation sequence from a device satisfying the weak invariant. -/
theorem index_consistency_after_ops :
    (∀ (d0 : Device) (ops : List DevOp) (d1 : Device),
       DevInv d0 → SeqFresh d0 ops → runOps d0 ops = .ok d1 → IndexConsistent d1) ∧
    (∀ (d0 : Device) (ops : List DevOp) (d1 : Device),
       DevInvW d0 → runOps d0 ops = .ok d1 → NoOrphans d1) :=
  ⟨fun _ _ _ hinv hfresh hrun => indexConsistent_of_devInv (devInv_runOps hinv hfresh hrun),
   fun _ _ _ hinv hrun => (devInvW_runOps hinv hrun).2.2⟩

/-- A concrete sequence with disjoint CIDRs: two adds, a remove, a clear. -/
def c1wOps : List DevOp :=
  [.update [10] false false none [c1CidrA] none none,
   .update [11] false false none [⟨.v4 167772416, 24⟩] none none,
   .removePeerOp [10],
   .clearPeersOp]

/-- The device reached by c1wOps. -/
def c1wDev1 : Device := ((runOps c1Dev0 c1wOps).toOption).getD freshDevice

/-- Witness for the amended C1 theorem: full consistency on a fresh-CIDR
sequence, and no orphans even on the shared-CIDR counterexample sequence. -/
theorem index_consistency_after_ops_witness :
    IndexConsistent c1wDev1 ∧ NoOrphans c1DevBad :=
  ⟨index_consistency_after_ops.1 c1Dev0 c1wOps c1wDev1 (by decide) (by decide) (by decide),
   index_consistency_after_ops.2 c1Dev0 c1Ops c1DevBad (by decide) (by decide)⟩

/-! ## Claim C2 -/

/-- Claim C2 (amended): a call to update_peer with remove=false and a public
key already present does not fail with a recoverable AlreadyExists error — it
panics with "Modifying existing peers is not yet supported. Remove and add
again instead.", and the device is unmodified at the panic point (the
presence check precedes every write). Over UAPI the panic propagates out of
api_set, so no errno response is produced at all. -/
theorem update_peer_duplicate_panics (d : Device) (pk : Key) (p : Peer) (rip : Bool)
    (ep : Option SockAddr) (ips : List AllowedIP) (ka : Option Nat) (psk : Option Key)
    (h : alGet d.peers pk = some p) :
    d.updatePeer pk false rip ep ips ka psk =
      .error ⟨"Modifying existing peers is not yet supported. Remove and add again instead.",
              d⟩ := by
  unfold Device.updatePeer
  simp [h]

/-- A device holding the peer with public key [10]. -/
def c2Dev : Device :=
  ((((freshDevice.setKey [1] acceptAll).toOption).getD freshDevice).updatePeer
      [10] false false none [] none none).toOption.getD freshDevice

/-- The peer stored in c2Dev under key [10]. -/
def c2Peer : Peer := ⟨Tunn.new [1] [10] none none 0, 0, [], none⟩

/-- Witness for the C2 theorem: the duplicate-add panic at a concrete device. -/
theorem update_peer_duplicate_panics_witness :
    c2Dev.updatePeer [10] false false none [] none none =
      .error ⟨"Modifying existing peers is not yet supported. Remove and add again instead.",
              c2Dev⟩ :=
  update_peer_duplicate_panics c2Dev [10] c2Peer false none [] none none (by decide)

/-- A network environment that is never consulted (bind always fails). -/
def c2Env : NetEnv := ⟨fun _ => none, fun _ => none, fun _ => true⟩

/-- A set=1 request re-adding the already-present public key [10]. -/
def c2Req : SetReq :=
  { privateKey := none, listenPort := none, fwmark := none, replacePeers := false,
    protocolVersion := none,
    peers := [{ peer := { publicKey := [10], presharedKey := none, endpoint := none,
                          persistentKeepaliveInterval := none, allowedIp := [] },
                remove := false, updateOnly := false }] }

/-- Claim C2, counterexample: a set=1 request that re-adds an existing public
key produces no errno response at all (neither EEXIST nor EINVAL) — api_set
ends in the update_peer panic, with the device state unchanged. -/
theorem duplicate_add_no_errno_response :
    c2Dev.apiSet c2Env acceptAll c2Req =
      .error ⟨"Modifying existing peers is not yet supported. Remove and add again instead.",
              c2Dev⟩ := by
  decide

/-! ## Claim C3 -/

/-- A concrete private key for the C3 device. -/
def c3Priv : Key := [1, 2, 3]

/-- A device whose key pair is set from c3Priv. -/
def c3Dev : Device := ((freshDevice.setKey c3Priv acceptAll).toOption).getD freshDevice

/-- A trivial statistics oracle. -/
def c3Stats : Peer → Nat × Nat := fun _ => (0, 0)

/-- A trivial last-handshake oracle. -/
def c3LastHs : Peer → Option (Nat × Nat) := fun _ => none

/-- Claim C3 (code bug): for this device with its key pair set, api_get fills
the private_key field from the second component of the key pair — the derived
PUBLIC key — so the emitted hex is the public key's hex and differs from the
hex of the stored static private key. -/
theorem api_get_emits_public_key_in_private_key_field :
    c3Dev.keyPair = some (c3Priv, derivePublic c3Priv) ∧
    (c3Dev.apiGet c3Stats c3LastHs).privateKey = some (derivePublic c3Priv) ∧
    hexOfBytes (derivePublic c3Priv) ≠ hexOfBytes c3Priv := by
  decide

/-! ## Claim C10 -/

/-- Claim C10: the add path of update_peer (remove=false, key not present)
completes without panicking only if the device key pair is set and fewer than
2^24 indices have been allocated; and on a device without a key pair (with
the index assertion passing) it panics with "Private key must be set first" —
after next_index has already incremented the counter. -/
theorem update_peer_add_preconditions :
    (∀ (d : Device) (pk : Key) (rip : Bool) (ep : Option SockAddr)
       (ips : List AllowedIP) (ka : Option Nat) (psk : Option Key) (d' : Device),
       d.updatePeer pk false rip ep ips ka psk = .ok d' →
       d.keyPair.isSome = true ∧ d.nextIndex < 2 ^ 24) ∧
    (∀ (d : Device) (pk : Key) (rip : Bool) (ep : Option SockAddr)
       (ips : List AllowedIP) (ka : Option Nat) (psk : Option Key),
       alGet d.peers pk = none → d.keyPair = none → d.nextIndex < 2 ^ 24 →
       d.updatePeer pk false rip ep ips ka psk =
         .error ⟨"Private key must be set first",
                 { d with nextIndex := d.nextIndex + 1 }⟩) := by
  constructor
  · intro d pk rip ep ips ka psk d' hup
    obtain ⟨kp, hkp, hget, hidx, rfl⟩ := updatePeer_add_ok hup
    refine ⟨?_, hidx⟩
    rw [hkp]
    rfl
  · intro d pk rip ep ips ka psk hget hkp hidx
    have hidx2 : d.nextIndex < 16777216 := by simpa using hidx
    unfold Device.updatePeer
    simp [hget, hkp, hidx, hidx2]

/-- A device with a key pair, used for the successful-add part of the C10
witness. -/
def c10Dev : Device := ((freshDevice.setKey [2] acceptAll).toOption).getD freshDevice

/-- The result of a successful add on c10Dev. -/
def c10Dev1 : Device :=
  ((c10Dev.updatePeer [9] false false none [] none none).toOption).getD freshDevice

/-- Witness for the C10 theorem: a successful add on a keyed device has the
claimed preconditions, and the add on a fresh (keyless) device panics with
"Private key must be set first". -/
theorem update_peer_add_preconditions_witness :
    (c10Dev.keyPair.isSome = true ∧ c10Dev.nextIndex < 2 ^ 24) ∧
    freshDevice.updatePeer [9] false false none [] none none =
      .error ⟨"Private key must be set first",
              { freshDevice with nextIndex := freshDevice.nextIndex + 1 }⟩ :=
  ⟨update_peer_add_preconditions.1 c10Dev [9] false none [] none none c10Dev1 (by decide),
   update_peer_add_preconditions.2 freshDevice [9] false none [] none none
     (by decide) (by decide) (by decide)⟩

/-! ## Claim C7 -/

theorem setKey_ok {d : Device} {priv : Key} {accepts : Tunn → Key → Key → Bool}
    {d' : Device} (h : d.setKey priv accepts = .ok d') :
    (d.keyPair.map Prod.snd = some (derivePublic priv) ∧ d' = d) ∨
    (d.keyPair.map Prod.snd ≠ some (derivePublic priv) ∧
     (∀ e ∈ d.peers, accepts e.2.tunnel priv (derivePublic priv) = true) ∧
     d' = setKeyApplied d priv accepts) := by
  unfold Device.setKey at h
  dsimp only at h
  by_cases heq : d.keyPair.map Prod.snd = some (derivePublic priv)
  · rw [if_pos heq] at h
    injection h with h
    exact Or.inl ⟨heq, h.symm⟩
  · rw [if_neg heq] at h
    by_cases hbad :
        d.peers.any (fun e => !(accepts e.2.tunnel priv (derivePublic priv))) = true
    · rw [if_pos hbad] at h
      exact absurd h (by simp)
    · rw [if_neg hbad] at h
      injection h with h
      refine Or.inr ⟨heq, ?_, h.symm⟩
      intro e he
      by_contra hacc
      apply hbad
      refine List.any_eq_true.mpr ⟨e, he, ?_⟩
      simp only [Bool.not_eq_true] at hacc
      simp [hacc]

/-- Claim C4: in both the UDP-ingress handler and the connected-socket
handler, a WriteToTunnelV4/V6(pkt, a) tunnel result is written to the tun
interface iff peer.is_allowed_ip(a) holds; otherwise the packet is dropped. -/
theorem write_to_tunnel_iff_allowed (peer : Peer) (pkt : List Nat) (a : Nat) :
    (UdpEffect.writeTun4 pkt ∈ (udpHandlerDispatch peer (.writeToTunnelV4 pkt a)).effects ↔
       peer.isAllowedIp (.v4 a) = true) ∧
    (UdpEffect.writeTun6 pkt ∈ (udpHandlerDispatch peer (.writeToTunnelV6 pkt a)).effects ↔
       peer.isAllowedIp (.v6 a) = true) ∧
    (UdpEffect.writeTun4 pkt ∈ (connHandlerDispatch peer (.writeToTunnelV4 pkt a)).effects ↔
       peer.isAllowedIp (.v4 a) = true) ∧
    (UdpEffect.writeTun6 pkt ∈ (connHandlerDispatch peer (.writeToTunnelV6 pkt a)).effects ↔
       peer.isAllowedIp (.v6 a) = true) := by
  refine ⟨?_, ?_, ?_, ?_⟩
  · by_cases h : peer.isAllowedIp (.v4 a) = true <;> simp [udpHandlerDispatch, h]
  · by_cases h : peer.isAllowedIp (.v6 a) = true <;> simp [udpHandlerDispatch, h]
  · by_cases h : peer.isAllowedIp (.v4 a) = true <;> simp [connHandlerDispatch, h]
  · by_cases h : peer.isAllowedIp (.v6 a) = true <;> simp [connHandlerDispatch, h]

/-! ## Claim C5 -/

/-- The peer lookup performed by the UDP-ingress handler on a parsed packet. -/
def peerLookup (d : Device) (anonParse : Key → Key → HsInitData → Option Key)
    (kp : Key × Key) (pkt : Packet) : Option Peer :=
  match pkt with
  | .handshakeInit q => (anonParse kp.1 kp.2 q).bind (fun k => alGet d.peers k)
  | .handshakeResponse i => alGet d.peersByIdx (i >>> 8)
  | .packetCookieReply i => alGet d.peersByIdx (i >>> 8)
  | .packetData i => alGet d.peersByIdx (i >>> 8)

theorem udpDatagramStep_eq_lookup (d : Device)
    (anonParse : Key → Key → HsInitData → Option Key)
    (hv : Peer → Packet → TunnResult) (drainQ : List (List Nat))
    (kp : Key × Key) (rl : RateLimiter) (pkt : Packet)
    (hk : d.keyPair = some kp) (hr : d.rateLimiter = some rl) :
    d.udpDatagramStep anonParse (.ok pkt) hv drainQ =
      match peerLookup d anonParse kp pkt with
      | none => .ok []
      | some peer =>
        if (udpHandlerDispatch peer (hv peer pkt)).skipRest then
          .ok [.handledVerified peer.index]
        else
          .ok ([.handledVerified peer.index] ++ (udpHandlerDispatch peer (hv peer pkt)).effects ++
               (if (udpHandlerDispatch peer (hv peer pkt)).flush
                then drainQ.map UdpEffect.sendto else []) ++
               [.setEndpoint peer.index] ++
               (if d.useConnectedSocket &&
                   ((alGet d.endpoints peer.index).bind (fun e => e.conn)).isNone
                then [.connectEndpoint peer.index] else [])) := by
  unfold Device.udpDatagramStep peerLookup
  rw [hk, hr]

theorem udpDatagramStep_none (d : Device)
    (anonParse : Key → Key → HsInitData → Option Key)
    (hv : Peer → Packet → TunnResult) (drainQ : List (List Nat))
    (kp : Key × Key) (rl : RateLimiter) (pkt : Packet)
    (hk : d.keyPair = some kp) (hr : d.rateLimiter = some rl)
    (hfound : peerLookup d anonParse kp pkt = none) :
    d.udpDatagramStep anonParse (.ok pkt) hv drainQ = .ok [] := by
  rw [udpDatagramStep_eq_lookup d anonParse hv drainQ kp rl pkt hk hr, hfound]

theorem udpDatagramStep_found (d : Device)
    (anonParse : Key → Key → HsInitData → Option Key)
    (hv : Peer → Packet → TunnResult) (drainQ : List (List Nat))
    (kp : Key × Key) (rl : RateLimiter) (pkt : Packet) (p : Peer)
    (hk : d.keyPair = some kp) (hr : d.rateLimiter = some rl)
    (hfound : peerLookup d anonParse kp pkt = some p) :
    ∃ effs, d.udpDatagramStep anonParse (.ok pkt) hv drainQ =
      .ok (.handledVerified p.index :: effs) := by
  rw [udpDatagramStep_eq_lookup d anonParse hv drainQ kp rl pkt hk hr, hfound]
  by_cases hs : (udpHandlerDispatch p (hv p pkt)).skipRest = true
  · exact ⟨[], by simp [hs]⟩
  · refine ⟨(udpHandlerDispatch p (hv p pkt)).effects ++
      (if (udpHandlerDispatch p (hv p pkt)).flush then drainQ.map UdpEffect.sendto else []) ++
      [.setEndpoint p.index] ++
      (if d.useConnectedSocket &&
          ((alGet d.endpoints p.index).bind (fun e => e.conn)).isNone
       then [.connectEndpoint p.index] else []), ?_⟩
    simp [hs]

/-- Claim C5: for a datagram accepted by the rate limiter on a device whose
key pair and rate limiter are set, the UDP-ingress handler looks the peer up
by receiver_index >> 8 in the by-index map for HandshakeResponse, CookieReply
and Data packets, and by anonymous handshake parsing with the device static
keys followed by a by-key lookup of the embedded peer static public key for
HandshakeInit; when no peer is found the datagram is dropped without invoking
tunnel.handle_verified_packet (no effects at all), and when one is found
handle_verified_packet runs on exactly that peer. -/
theorem udp_ingress_peer_lookup (d : Device)
    (anonParse : Key → Key → HsInitData → Option Key)
    (hv : Peer → Packet → TunnResult) (drainQ : List (List Nat))
    (kp : Key × Key) (rl : RateLimiter)
    (hk : d.keyPair = some kp) (hr : d.rateLimiter = some rl) :
    (∀ i, alGet d.peersByIdx (i >>> 8) = none →
       d.udpDatagramStep anonParse (.ok (.handshakeResponse i)) hv drainQ = .ok [] ∧
       d.udpDatagramStep anonParse (.ok (.packetCookieReply i)) hv drainQ = .ok [] ∧
       d.udpDatagramStep anonParse (.ok (.packetData i)) hv drainQ = .ok []) ∧
    (∀ i p, alGet d.peersByIdx (i >>> 8) = some p →
       (∃ effs, d.udpDatagramStep anonParse (.ok (.handshakeResponse i)) hv drainQ =
          .ok (.handledVerified p.index :: effs)) ∧
       (∃ effs, d.udpDatagramStep anonParse (.ok (.packetCookieReply i)) hv drainQ =
          .ok (.handledVerified p.index :: effs)) ∧
       (∃ effs, d.udpDatagramStep anonParse (.ok (.packetData i)) hv drainQ =
          .ok (.handledVerified p.index :: effs))) ∧
    (∀ q, anonParse kp.1 kp.2 q = none →
       d.udpDatagramStep anonParse (.ok (.handshakeInit q)) hv drainQ = .ok []) ∧
    (∀ q k, anonParse kp.1 kp.2 q = some k → alGet d.peers k = none →
       d.udpDatagramStep anonParse (.ok (.handshakeInit q)) hv drainQ = .ok []) ∧
    (∀ q k p, anonParse kp.1 kp.2 q = some k → alGet d.peers k = some p →
       ∃ effs, d.udpDatagramStep anonParse (.ok (.handshakeInit q)) hv drainQ =
         .ok (.handledVerified p.index :: effs)) := by
  refine ⟨?_, ?_, ?_, ?_, ?_⟩
  · intro i hnone
    exact ⟨udpDatagramStep_none d anonParse hv drainQ kp rl _ hk hr hnone,
           udpDatagramStep_none d anonParse hv drainQ kp rl _ hk hr hnone,
           udpDatagramStep_none d anonParse hv drainQ kp rl _ hk hr hnone⟩
  · intro i p hsome
    exact ⟨udpDatagramStep_found d anonParse hv drainQ kp rl _ p hk hr hsome,
           udpDatagramStep_found d anonParse hv drainQ kp rl _ p hk hr hsome,
           udpDatagramStep_found d anonParse hv drainQ kp rl _ p hk hr hsome⟩
  · intro q hq
    refine udpDatagramStep_none d anonParse hv drainQ kp rl _ hk hr ?_
    show (anonParse kp.1 kp.2 q).bind (fun k => alGet d.peers k) = none
    rw [hq]
    rfl
  · intro q k hq hk2
    refine udpDatagramStep_none d anonParse hv drainQ kp rl _ hk hr ?_
    show (anonParse kp.1 kp.2 q).bind (fun k => alGet d.peers k) = none
    rw [hq]
    simpa using hk2
  · intro q k p hq hk2
    refine udpDatagramStep_found d anonParse hv drainQ kp rl _ p hk hr ?_
    show (anonParse kp.1 kp.2 q).bind (fun k => alGet d.peers k) = some p
    rw [hq]
    simpa using hk2

/-- A concrete peer at index 3 for the C5 witness. -/
def c5Peer : Peer := ⟨Tunn.new [1] [10] none none 3, 3, [], none⟩

/-- A concrete device with key pair, rate limiter, and one peer at index 3. -/
def c5Dev : Device :=
  { freshDevice with
    keyPair := some ([1], derivePublic [1]),
    rateLimiter := some ⟨derivePublic [1], 100⟩,
    peers := [([10], c5Peer)], peersByIdx := [(3, c5Peer)], nextIndex := 4 }

/-- An anonymous-parse oracle that always reports peer static key [10]. -/
def c5Anon : Key → Key → HsInitData → Option Key := fun _ _ _ => some [10]

/-- A tunnel oracle that always returns Done. -/
def c5Hv : Peer → Packet → TunnResult := fun _ _ => .done

/-- Witness for the C5 theorem: a Data packet with an unknown receiver index
is dropped with no effects, and a HandshakeInit resolving to key [10] reaches
handle_verified_packet on that peer. -/
theorem udp_ingress_peer_lookup_witness :
    (c5Dev.udpDatagramStep c5Anon (.ok (.packetData 0)) c5Hv [] = .ok []) ∧
    (∃ effs, c5Dev.udpDatagramStep c5Anon (.ok (.handshakeInit ⟨0, []⟩)) c5Hv [] =
       .ok (.handledVerified c5Peer.index :: effs)) :=
  ⟨((udp_ingress_peer_lookup c5Dev c5Anon c5Hv [] ([1], derivePublic [1])
      ⟨derivePublic [1], 100⟩ (by decide) (by decide)).1 0 (by decide)).2.2,
   (udp_ingress_peer_lookup c5Dev c5Anon c5Hv [] ([1], derivePublic [1])
      ⟨derivePublic [1], 100⟩ (by decide) (by decide)).2.2.2.2 ⟨0, []⟩ [10] c5Peer
      (by decide) (by decide)⟩

/-! ## Claim C6 -/

theorem shutdownAllPeerConns_conn_none {d : Device} {e : Nat × Endpoint}
    (he : e ∈ d.shutdownAllPeerConns.endpoints)
    (hp : ∃ pe ∈ d.peers, pe.2.index = e.1) : e.2.conn = none := by
  obtain ⟨pe, hpe, hidx⟩ := hp
  rcases List.mem_map.mp he with ⟨a, ha, hfa⟩
  by_cases hc : d.peers.any (fun q => q.2.index == a.1) = true
  · rw [← hfa]
    simp [hc]
  · exfalso
    apply hc
    have hea : e = a := by rw [← hfa]; simp [hc]
    rw [hea] at hidx
    exact List.any_eq_true.mpr ⟨pe, hpe, by simpa using hidx⟩

theorem shutdownAllPeerConns_peers (d : Device) :
    d.shutdownAllPeerConns.peers = d.peers := rfl

/-- Claim C6: a successful open_listen_socket(port) replaces the v4 and v6
listeners with freshly bound sockets, closes every peer's connected socket,
and afterwards the stored listen_port equals the kernel-reported bound port
of both new sockets; for port = 0 the stored port is the kernel-assigned one
read back from the v4 socket, otherwise it is the requested port. -/
theorem open_listen_socket_spec (env : NetEnv) (d d' : Device) (port : Nat)
    (henv : env.Honest) (h : d.openListenSocket env port = (d', true)) :
    (∃ s4, d'.udp4 = some s4 ∧ s4.port = d'.listenPort ∧ s4.isV6 = false) ∧
    (∃ s6, d'.udp6 = some s6 ∧ s6.port = d'.listenPort ∧ s6.isV6 = true) ∧
    (port ≠ 0 → d'.listenPort = port) ∧
    (port = 0 → env.bind4 0 = some d'.listenPort) ∧
    (∀ e ∈ d'.endpoints, (∃ pe ∈ d.peers, pe.2.index = e.1) → e.2.conn = none) ∧
    d'.peers = d.peers := by
  unfold Device.openListenSocket at h
  cases hb4 : env.bind4 port with
  | none =>
    rw [hb4] at h
    dsimp only at h
    injection h with h1 h2
    exact absurd h2 (by simp)
  | some p4 =>
    rw [hb4] at h
    dsimp only at h
    cases hb6 : env.bind6 (if port = 0 then p4 else port) with
    | none =>
      rw [hb6] at h
      dsimp only at h
      injection h with h1 h2
      exact absurd h2 (by simp)
    | some p6 =>
      rw [hb6] at h
      dsimp only at h
      injection h with h1 h2
      subst h1
      have hport4 := henv.1 port p4 hb4
      have hport6 := henv.2 (if port = 0 then p4 else port) p6 hb6
      by_cases hp0 : port = 0
      · subst hp0
        have hp4ne : p4 ≠ 0 := hport4.1 rfl
        have hp6 : p6 = p4 := by
          have := hport6.2
          simp [hp4ne] at this
          exact this
        refine ⟨⟨⟨p4, false⟩, rfl, by simp, rfl⟩,
                ⟨⟨p6, true⟩, rfl, by simp [hp6], rfl⟩,
                fun hne => absurd rfl hne,
                fun _ => by simpa using hb4,
                ?_, rfl⟩
        intro e he hp
        exact shutdownAllPeerConns_conn_none he hp
      · have hp4 : p4 = port := hport4.2 hp0
        have hp6 : p6 = port := by
          have := hport6.2
          simp [hp0] at this
          exact this
        refine ⟨⟨⟨p4, false⟩, rfl, by simp [hp0, hp4], rfl⟩,
                ⟨⟨p6, true⟩, rfl, by simp [hp0, hp6], rfl⟩,
                fun _ => by simp [hp0],
                fun hz => absurd hz hp0,
                ?_, rfl⟩
        intro e he hp
        exact shutdownAllPeerConns_conn_none he hp

/-- A well-behaved environment for the C6 witness: kernel-assigned port 7777,
otherwise the requested port. -/
def c6Env : NetEnv :=
  ⟨fun p => some (if p = 0 then 7777 else p), fun p => some (if p = 0 then 7777 else p),
   fun _ => true⟩

theorem c6Env_honest : c6Env.Honest := by
  constructor <;>
  · intro p q h
    by_cases hp : p = 0 <;> simp [c6Env, hp] at h <;> simp [hp, ← h]

/-- A concrete peer for the C6 witness device. -/
def c6Peer : Peer := ⟨Tunn.new [1] [10] none none 0, 0, [], none⟩

/-- A device with listeners bound and a peer holding a connected socket. -/
def c6Dev : Device :=
  { keyPair := some ([1], derivePublic [1]), listenPort := 1111, fwmark := none,
    udp4 := some ⟨1111, false⟩, udp6 := some ⟨1111, true⟩,
    peers := [([10], c6Peer)], peersByIp := [], peersByIdx := [(0, c6Peer)],
    nextIndex := 1,
    endpoints := [(0, ⟨some ⟨.v4 5, 1000⟩, some ⟨2222, false⟩⟩)],
    rateLimiter := some ⟨derivePublic [1], 100⟩, useConnectedSocket := true }

/-- The device after rebinding c6Dev to port 51820. -/
def c6Dev' : Device := (c6Dev.openListenSocket c6Env 51820).1

/-- Witness for the C6 theorem: rebinding the concrete device to port 51820. -/
theorem open_listen_socket_spec_witness :
    (∃ s4, c6Dev'.udp4 = some s4 ∧ s4.port = c6Dev'.listenPort ∧ s4.isV6 = false) ∧
    (∃ s6, c6Dev'.udp6 = some s6 ∧ s6.port = c6Dev'.listenPort ∧ s6.isV6 = true) ∧
    ((51820 : Nat) ≠ 0 → c6Dev'.listenPort = 51820) ∧
    ((51820 : Nat) = 0 → c6Env.bind4 0 = some c6Dev'.listenPort) ∧
    (∀ e ∈ c6Dev'.endpoints, (∃ pe ∈ c6Dev.peers, pe.2.index = e.1) → e.2.conn = none) ∧
    c6Dev'.peers = c6Dev.peers :=
  open_listen_socket_spec c6Env c6Dev c6Dev' 51820 c6Env_honest (by decide)

/-! ## Claim C8 -/

theorem openListenSocket_fail {d : Device} {env : NetEnv} {port : Nat} {d1 : Device}
    (h : d.openListenSocket env port = (d1, false)) :
    d1.udp4 = none ∧ d1.udp6 = none ∧ d1.peers = d.peers ∧ d1.keyPair = d.keyPair ∧
    (∀ e ∈ d1.endpoints, (∃ pe ∈ d1.peers, pe.2.index = e.1) → e.2.conn = none) := by
  unfold Device.openListenSocket at h
  cases hb4 : env.bind4 port with
  | none =>
    rw [hb4] at h
    dsimp only at h
    injection h with h1 h2
    subst h1
    exact ⟨rfl, rfl, rfl, rfl, fun e he hp => shutdownAllPeerConns_conn_none he hp⟩
  | some p4 =>
    rw [hb4] at h
    dsimp only at h
    cases hb6 : env.bind6 (if port = 0 then p4 else port) with
    | none =>
      rw [hb6] at h
      dsimp only at h
      injection h with h1 h2
      subst h1
      exact ⟨rfl, rfl, rfl, rfl, fun e he hp => shutdownAllPeerConns_conn_none he hp⟩
    | some p6 =>
      rw [hb6] at h
      dsimp only at h
      injection h with h1 h2
      exact absurd h2 (by simp)

theorem setKey_ok_peers_nil {d : Device} {priv : Key} {accepts : Tunn → Key → Key → Bool}
    {d' : Device} (hnil : d.peers = []) (h : d.setKey priv accepts = .ok d') :
    d'.peers = [] := by
  rcases setKey_ok h with ⟨_, rfl⟩ | ⟨_, _, rfl⟩
  · exact hnil
  · show d.peers.map _ = []
    rw [hnil]
    rfl

theorem setKey_ok_keyPair {d : Device} {priv : Key} {accepts : Tunn → Key → Key → Bool}
    {d' : Device} (h : d.setKey priv accepts = .ok d') :
    ∃ pr, d'.keyPair = some (pr, derivePublic priv) := by
  rcases setKey_ok h with ⟨heq, rfl⟩ | ⟨_, _, rfl⟩
  · cases hkp : d'.keyPair with
    | none => rw [hkp] at heq; exact absurd heq (by simp)
    | some kp =>
      rw [hkp] at heq
      obtain ⟨a, b⟩ := kp
      have hb : b = derivePublic priv := by simpa using heq
      exact ⟨a, by rw [hb]⟩
  · exact ⟨priv, rfl⟩

theorem apiSetPrelude_peers_nil {d : Device} {accepts : Tunn → Key → Key → Bool}
    {set : SetReq} {dMid : Device} (hrp : set.replacePeers = true)
    (h : d.apiSetPrelude accepts set = .ok dMid) : dMid.peers = [] := by
  unfold Device.apiSetPrelude at h
  rw [hrp] at h
  dsimp only at h
  cases hpk : set.privateKey with
  | none =>
    rw [hpk] at h
    dsimp only at h
    injection h with h
    rw [← h]
    rfl
  | some k =>
    rw [hpk] at h
    dsimp only at h
    exact setKey_ok_peers_nil rfl h

theorem apiSetPrelude_keyPair {d : Device} {accepts : Tunn → Key → Key → Bool}
    {set : SetReq} {dMid : Device} {k : Key} (hk : set.privateKey = some k)
    (h : d.apiSetPrelude accepts set = .ok dMid) :
    ∃ pr, dMid.keyPair = some (pr, derivePublic k) := by
  unfold Device.apiSetPrelude at h
  dsimp only at h
  rw [hk] at h
  exact setKey_ok_keyPair h

/-- Claim C8 (amended): for every set=1 request whose listen_port rebind
fails (the prelude — replace_peers and private_key — succeeded, the request
carries a listen_port, and open_listen_socket on it fails), the response is
errno=EADDRINUSE, but the device state is NOT left unchanged: the prior
listeners are already deregistered (both socket slots are empty), every
peer's connected socket is closed, and the effects of keys processed earlier
in the same request persist (replace_peers has emptied the peer set,
private_key has installed the new key pair). A requested fwmark whose
setsockopt fails also answers EADDRINUSE, on a different path not covered
here. -/
theorem api_set_rebind_failure (env : NetEnv) (accepts : Tunn → Key → Key → Bool)
    (set : SetReq) (d dMid d1 : Device) (p : Nat)
    (hpre : d.apiSetPrelude accepts set = .ok dMid)
    (hlp : set.listenPort = some p)
    (hols : dMid.openListenSocket env p = (d1, false)) :
    d.apiSet env accepts set = .ok (⟨EADDRINUSE⟩, d1) ∧
    d1.udp4 = none ∧ d1.udp6 = none ∧
    (∀ e ∈ d1.endpoints, (∃ pe ∈ d1.peers, pe.2.index = e.1) → e.2.conn = none) ∧
    (set.replacePeers = true → d1.peers = []) ∧
    (∀ k, set.privateKey = some k → ∃ pr, d1.keyPair = some (pr, derivePublic k)) := by
  obtain ⟨hu4, hu6, hpeers, hkp, hconn⟩ := openListenSocket_fail hols
  refine ⟨?_, hu4, hu6, hconn, ?_, ?_⟩
  · unfold Device.apiSet
    rw [hpre]
    dsimp only
    rw [hlp]
    dsimp only
    rw [hols]
  · intro hrp
    rw [hpeers]
    exact apiSetPrelude_peers_nil hrp hpre
  · intro k hk
    rw [hkp]
    exact apiSetPrelude_keyPair hk hpre

/-- A network environment on which every bind fails (the port is in use). -/
def c8EnvFail : NetEnv := ⟨fun _ => none, fun _ => none, fun _ => true⟩

/-- A concrete peer for the C8 device. -/
def c8Peer : Peer := ⟨Tunn.new [1] [10] none none 0, 0, [], none⟩

/-- A device with bound listeners and a peer holding a connected socket. -/
def c8Dev : Device :=
  { keyPair := some ([1], derivePublic [1]), listenPort := 1111, fwmark := none,
    udp4 := some ⟨1111, false⟩, udp6 := some ⟨1111, true⟩,
    peers := [([10], c8Peer)], peersByIp := [], peersByIdx := [(0, c8Peer)],
    nextIndex := 1,
    endpoints := [(0, ⟨some ⟨.v4 5, 1000⟩, some ⟨2222, false⟩⟩)],
    rateLimiter := some ⟨derivePublic [1], 100⟩, useConnectedSocket := true }

/-- A set=1 request that only asks for a rebind to port 51820. -/
def c8Req : SetReq :=
  { privateKey := none, listenPort := some 51820, fwmark := none, replacePeers := false,
    protocolVersion := none, peers := [] }

/-- The device state left behind by the failed rebind request. -/
def c8After : Device := (c8Dev.openListenSocket c8EnvFail 51820).1

/-- Claim C8, counterexample: when the rebind fails the response is indeed
errno=EADDRINUSE, but the device state is changed by the failed request — the
listeners are gone and the peer's connected socket is closed, so the
resulting state differs from the original. -/
theorem api_set_rebind_failure_counterexample :
    c8Dev.apiSet c8EnvFail acceptAll c8Req = .ok (⟨EADDRINUSE⟩, c8After) ∧
    c8After ≠ c8Dev := by
  decide

/-- Witness for the amended C8 theorem at the concrete failing rebind. -/
theorem api_set_rebind_failure_witness :
    c8Dev.apiSet c8EnvFail acceptAll c8Req = .ok (⟨EADDRINUSE⟩, c8After) ∧
    c8After.udp4 = none ∧ c8After.udp6 = none ∧
    (∀ e ∈ c8After.endpoints, (∃ pe ∈ c8After.peers, pe.2.index = e.1) → e.2.conn = none) ∧
    (c8Req.replacePeers = true → c8After.peers = []) ∧
    (∀ k, c8Req.privateKey = some k → ∃ pr, c8After.keyPair = some (pr, derivePublic k)) :=
  api_set_rebind_failure c8EnvFail acceptAll c8Req c8Dev c8Dev c8After 51820
    (by decide) (by decide) (by decide)

/-! ## Claim C9 -/

/-- A network environment for the C9 request (never consulted). -/
def c9Env : NetEnv := ⟨fun _ => none, fun _ => none, fun _ => true⟩

/-- A device with the key pair set and no peers. -/
def c9Dev : Device := ((freshDevice.setKey [1] acceptAll).toOption).getD freshDevice

/-- A set=1 request whose single peer block carries an explicit empty (unset)
preshared_key. -/
def c9Req : SetReq :=
  { privateKey := none, listenPort := none, fwmark := none, replacePeers := false,
    protocolVersion := none,
    peers := [{ peer := { publicKey := [10], presharedKey := some .unset, endpoint := none,
                          persistentKeepaliveInterval := none, allowedIp := [] },
                remove := false, updateOnly := false }] }

/-- Claim C9 (code bug): a set=1 peer block whose preshared_key carries an
empty (unset) value does not clear the peer's preshared key and complete
normally — the handling of SetUnset::Unset is todo!("not sure how to handle
this"), so api_set panics and produces no response. -/
theorem api_set_unset_psk_panics :
    c9Dev.apiSet c9Env acceptAll c9Req = .error ⟨"not sure how to handle this", c9Dev⟩ := by
  decide
